import Mathlib

/-!
Shallow embedding of `@sourceregistry/node-prometheus` (src/src/index.ts):
a Prometheus/OpenMetrics metric model and text-exposition encoder.

JavaScript numbers are modelled by `JVal`: an idealized IEEE double with
`NaN`, `+Infinity`, `-Infinity` and exact rationals for the finite values
(rounding of doubles is not modelled; no claim here depends on it).
JS number-to-string conversion is exact on our integers and on the special
values; for non-integral rationals, where JS prints the shortest decimal
round-tripping the double, we print the rational directly — again no claim
depends on the non-integral formatting.
-/

namespace NodeProm

/-- A JavaScript `number`: NaN, the two infinities, or a finite value
(modelled as an exact rational). -/
inductive JVal where
  | nan
  | inf
  | ninf
  | num (q : ℚ)
deriving DecidableEq, Repr, Inhabited

/-- `isNaN(v)` for a JS number. -/
def JVal.isNaN : JVal → Bool
  | .nan => true
  | _ => false

/-- The JS comparison `a <= b` on numbers: false whenever either side is NaN. -/
def jle : JVal → JVal → Bool
  | .nan, _ => false
  | _, .nan => false
  | .ninf, _ => true
  | _, .inf => true
  | .inf, _ => false
  | _, .ninf => false
  | .num a, .num b => a ≤ b

/-- JS addition `a + b` on numbers. -/
def jadd : JVal → JVal → JVal
  | .nan, _ => .nan
  | _, .nan => .nan
  | .inf, .ninf => .nan
  | .ninf, .inf => .nan
  | .inf, _ => .inf
  | _, .inf => .inf
  | .ninf, _ => .ninf
  | _, .ninf => .ninf
  | .num a, .num b => .num (a + b)

/-- JS `String(n)` for a number.  Exact on NaN, the infinities and integers;
non-integral rationals are printed as rationals (JS would print a decimal
expansion; no claim depends on that case). -/
def numStr : JVal → String
  | .nan => "NaN"
  | .inf => "Infinity"
  | .ninf => "-Infinity"
  | .num q => if q.den = 1 then toString q.num else toString q

/-- The ordering used by `Array.prototype.sort((a, b) => a - b)`.
On NaN-free input this is exactly the JS numeric comparator (`a - b <= 0`).
A NaN produces an inconsistent comparator in JS (engine-dependent order);
the model places NaN first, which keeps the relation total and transitive.
No bucket or quantile claim involves a NaN threshold. -/
def jsortLe : JVal → JVal → Bool
  | .nan, _ => true
  | _, .nan => false
  | .ninf, _ => true
  | _, .ninf => false
  | _, .inf => true
  | .inf, _ => false
  | .num a, .num b => a ≤ b

/-- Stable insertion into a sorted list: `x` goes before the first `y` with
`le x y`.  Used to model the (stable) JS `Array.prototype.sort`. -/
def insertLe {α : Type} (le : α → α → Bool) (x : α) : List α → List α
  | [] => [x]
  | y :: ys => if le x y then x :: y :: ys else y :: insertLe le x ys

/-- Stable sort by `le` (models JS `Array.prototype.sort` with a numeric
comparator). -/
def sortLe {α : Type} (le : α → α → Bool) (l : List α) : List α :=
  l.foldr (insertLe le) []

namespace Metric

/-- `Metric.cleanText`: sequential `replaceAll` steps of the source, on one
character (`'-'`, `'('`, `')'` removed; `'/'`, `' '` replaced by `'_'`),
expressed on character lists. -/
def replaceAllCh (a : Char) (b : List Char) (l : List Char) : List Char :=
  l.flatMap (fun c => if c = a then b else [c])

/-- `Metric.cleanText(input)` on a present string: the five `replaceAll`
calls of the source in order. -/
def cleanText (s : String) : String :=
  ⟨replaceAllCh ')' [] (replaceAllCh '(' []
    (replaceAllCh ' ' ['_'] (replaceAllCh '/' ['_']
      (replaceAllCh '-' [] s.data))))⟩

/-- `Metric.cleanText` including the `?.` optional chaining: absent input
yields absent output. -/
def cleanTextOpt : Option String → Option String :=
  Option.map cleanText

/-- `Metric.labelString(labels)`: empty mapping yields the empty string,
otherwise `{k1="v1",k2="v2",...}` in insertion order. -/
def labelString (labels : List (String × String)) : String :=
  if labels.isEmpty then ""
  else "\x7b" ++
    String.intercalate "," (labels.map (fun kv => kv.1 ++ "=\"" ++ kv.2 ++ "\"")) ++
    "\x7d"

end Metric

/-- The Prometheus metric kinds (`MetricType`). -/
inductive MetricType where
  | counter
  | gauge
  | histogram
  | summary
  | untyped
deriving DecidableEq, Repr

/-- The wire name of each metric kind. -/
def MetricType.str : MetricType → String
  | .counter => "counter"
  | .gauge => "gauge"
  | .histogram => "histogram"
  | .summary => "summary"
  | .untyped => "untyped"

namespace Metric

/-- `Metric.generateHeader()`: a `# HELP` line when both `this.name` and
`this.description` are truthy (for strings: non-empty), then a `# TYPE`
line unless the kind is `untyped`.  An absent description is modelled as
`none`; `getD ""` makes JS truthiness of `undefined` and `""` coincide. -/
def generateHeader (ty : MetricType) (name : String) (description : Option String) : String :=
  (if name ≠ "" ∧ description.getD "" ≠ "" then
    "# HELP " ++ name ++ " " ++ description.getD "" ++ "\n"
  else "") ++
  (if ty ≠ .untyped then "# TYPE " ++ name ++ " " ++ ty.str ++ "\n" else "")

end Metric

/-- The two exposition formats accepted by `Metric.concat`. -/
inductive ExpoFormat where
  | prometheus
  | openmetrics
deriving DecidableEq, Repr

/-- `String.prototype.trimEnd()`: drop all trailing whitespace. -/
def trimEnd (s : String) : String :=
  ⟨(s.data.reverse.dropWhile Char.isWhitespace).reverse⟩

namespace Metric

/-- `Metric.concat(format, ...metrics)`, modelled over the already-rendered
per-metric strings (the awaited `stringify()` results, in argument order):
join with `'\n'`; for OpenMetrics, trim trailing whitespace and append the
terminal `\n# EOF`. -/
def concat (format : ExpoFormat) (rendered : List String) : String :=
  let output := String.intercalate "\n" rendered
  match format with
  | .prometheus => output
  | .openmetrics => trimEnd output ++ "\n# EOF"

end Metric

/-- One element of a JS reader-result array: a number, or a non-number
value (a labels object; the source only ever inspects `typeof x === 'number'`
on elements, so every non-number element behaves as a labels object). -/
inductive JItem where
  | num (v : JVal)
  | obj (labels : List (String × String))
deriving DecidableEq, Repr

/-- One entry produced by a reader: a bare number, an array, or any other
runtime value (string, plain object, null, ...). -/
inductive ReaderEntry where
  | num (v : JVal)
  | arr (xs : List JItem)
  | other
deriving DecidableEq, Repr

/-- The value normalizer inside `ValueMetric`'s `_reader` wrapper, for one
entry.  `now` is `Date.now()`.  A bare number becomes `(v, {}, now)`; a
two-element array is discriminated on `typeof value[1]`; every other array
is returned unchanged (the source's `else` branch, commented "length 3",
actually passes through any array whose length is not 2); a non-number
non-array entry throws `Unexpected value format`.  (The source interpolates
`JSON.stringify(value)` into the message; the serialization is not
modelled.) -/
def normalizeEntry (now : JVal) : ReaderEntry → Except String (List JItem)
  | .num v => .ok [.num v, .obj [], .num now]
  | .arr [a, .num t] => .ok [a, .obj [], .num t]
  | .arr [a, b] => .ok [a, b, .num now]
  | .arr xs => .ok xs
  | .other => .error "Unexpected value format"

/-- The whole `_reader` wrapper: normalize every entry; the first malformed
entry aborts the render. -/
def readerNormalize (now : JVal) (rs : List ReaderEntry) : Except String (List (List JItem)) :=
  rs.mapM (normalizeEntry now)

/-- A JS `Record<number, number>`-style map used for `_bucketCounts`
(keys in insertion order). -/
def recGet (m : List (JVal × Nat)) (k : JVal) : Nat :=
  (((m.find? (fun p => p.1 == k)).map Prod.snd).getD 0)

/-- `m[k] = v` on a JS record: overwrite in place if the key exists,
otherwise append. -/
def recSet (m : List (JVal × Nat)) (k : JVal) (v : Nat) : List (JVal × Nat) :=
  if m.any (fun p => p.1 == k) then
    m.map (fun p => if p.1 == k then (k, v) else p)
  else m ++ [(k, v)]

/-- `m[k]++` on a JS record (every use in the source is on an
already-initialized key). -/
def recInc (m : List (JVal × Nat)) (k : JVal) : List (JVal × Nat) :=
  recSet m k (recGet m k + 1)

/-- The `Histogram` state: identity from the `Metric` base plus
`_buckets`, `_bucketCounts`, `_sum`, `_count`. -/
structure Histogram where
  name : String
  description : Option String
  labels : List (String × String)
  buckets : List JVal
  bucketCounts : List (JVal × Nat)
  sum : JVal
  count : Nat
deriving DecidableEq, Repr

/-- `Histogram.reset()`: zero every bucket's count, the sum and the count;
bucket configuration untouched. -/
def Histogram.reset (h : Histogram) : Histogram :=
  { h with
    bucketCounts := h.buckets.foldl (fun m b => recSet m b 0) h.bucketCounts,
    sum := .num 0,
    count := 0 }

/-- The `Histogram` constructor: clean the name, sort the configured buckets
with the numeric comparator, append `+Infinity`, then `reset()`. -/
def mkHistogram (name : String) (description : Option String)
    (buckets : List JVal) (labels : List (String × String)) : Histogram :=
  Histogram.reset
    { name := Metric.cleanText name
      description := description
      labels := labels
      buckets := sortLe jsortLe buckets ++ [.inf]
      bucketCounts := []
      sum := .num 0
      count := 0 }

/-- `Histogram.push(value)`: `sum += value`, `count++`, and one increment of
`bucketCounts[bucket]` per traversed bucket with `value <= bucket`.  No
validation happens here. -/
def Histogram.push (h : Histogram) (v : JVal) : Histogram :=
  { h with
    sum := jadd h.sum v,
    count := h.count + 1,
    bucketCounts :=
      h.buckets.foldl (fun m b => if jle v b then recInc m b else m) h.bucketCounts }

/-- `Histogram.observe(value)`: throw `Invalid histogram value` on NaN
(the `typeof value !== 'number'` half of the check cannot fire on a number
domain), otherwise delegate to `push`. -/
def Histogram.observe (h : Histogram) (v : JVal) : Except String Histogram :=
  if v.isNaN then .error ("Invalid histogram value: " ++ numStr v)
  else .ok (h.push v)

/-- A sequence of `push` calls. -/
def pushAll (h : Histogram) (vs : List JVal) : Histogram :=
  vs.foldl Histogram.push h

/-- A sequence of `observe` calls, the first failure aborting. -/
def observeAll (h : Histogram) (vs : List JVal) : Except String Histogram :=
  vs.foldlM Histogram.observe h

/-- The per-threshold counters in ascending threshold (i.e. `_buckets`)
order, as rendered by `bucketString`. -/
def bucketCountList (h : Histogram) : List Nat :=
  h.buckets.map (recGet h.bucketCounts)

/-- A JS `Map<number, number>` used for `_quantiles` (insertion order,
`set` overwrites an existing key in place). -/
def mapSet (m : List (JVal × JVal)) (k v : JVal) : List (JVal × JVal) :=
  if m.any (fun p => p.1 == k) then
    m.map (fun p => if p.1 == k then (k, v) else p)
  else m ++ [(k, v)]

/-- The `Summary` state: identity (a `Summary` is constructed without
default labels) plus `_quantiles`, `_sum`, `_count` and the caller-supplied
`_calculate` estimator. -/
structure Summary where
  name : String
  description : Option String
  quantiles : List (JVal × JVal)
  sum : JVal
  count : Nat
  calculate : JVal → JVal → JVal

/-- The `Summary` constructor: throws when the quantile list is empty,
otherwise initializes every quantile's estimate to 0 via
`new Map(quantiles.map(q => [q, 0]))`. -/
def mkSummary (name : String) (description : Option String)
    (quantiles : List JVal) (calculate : JVal → JVal → JVal) : Except String Summary :=
  if quantiles.isEmpty then .error "Summary must have at least one quantile"
  else .ok
    { name := Metric.cleanText name
      description := description
      quantiles := quantiles.foldl (fun m q => mapSet m q (.num 0)) []
      sum := .num 0
      count := 0
      calculate := calculate }

/-- `Summary.push(value)`: `sum += value`, `count++`, and every quantile's
estimate replaced by `calculate(value, quantile)`.  No validation. -/
def Summary.push (s : Summary) (v : JVal) : Summary :=
  { s with
    sum := jadd s.sum v,
    count := s.count + 1,
    quantiles := s.quantiles.map (fun p => (p.1, s.calculate v p.1)) }

/-- `Summary.observe(value)`: throw `Invalid summary value` on NaN,
otherwise delegate to `push`. -/
def Summary.observe (s : Summary) (v : JVal) : Except String Summary :=
  if v.isNaN then .error ("Invalid summary value: " ++ numStr v)
  else .ok (s.push v)

/-- The quantile lines of `summaryString`: entries sorted ascending by
quantile via `sort(([a],[b]) => a - b)`, each rendered as
`name{quantile="q"} estimate`. -/
def Summary.quantileLines (s : Summary) : List String :=
  (sortLe (fun p q => jsortLe p.1 q.1) s.quantiles).map
    (fun p => s.name ++ Metric.labelString [("quantile", numStr p.1)] ++ " " ++ numStr p.2)

/-- `Summary.summaryString()`: the quantile lines joined by newlines,
then the `_sum` and `_count` lines. -/
def Summary.summaryString (s : Summary) : String :=
  String.intercalate "\n" s.quantileLines ++
  "\n" ++ s.name ++ "_sum " ++ numStr s.sum ++
  "\n" ++ s.name ++ "_count " ++ toString s.count

/-- The per-character action `cleanText` is specified to perform: remove
`-`, `(`, `)`; replace `/` and space by `_`; keep everything else. -/
def cleanCharSpec (c : Char) : List Char :=
  if c = '-' ∨ c = '(' ∨ c = ')' then []
  else if c = '/' ∨ c = ' ' then ['_']
  else [c]

/-- Split a character list into its newline-separated lines
(like `String.split` on `'\n'`; a trailing newline yields a final empty
line). -/
def linesOf (l : List Char) : List (List Char) :=
  l.foldr (fun c acc => if c = '\n' then [] :: acc else (c :: acc.headD []) :: acc.tail) [[]]

/-- The characters of `"# HELP "`. -/
def helpMarker : List Char := ['#', ' ', 'H', 'E', 'L', 'P', ' ']

/-- The characters of `"# TYPE "`. -/
def typeMarker : List Char := ['#', ' ', 'T', 'Y', 'P', 'E', ' ']

/-- Whether some line of `s` is a `# HELP` line. -/
def hasHelpLine (s : String) : Bool :=
  (linesOf s.data).any (fun l => helpMarker.isPrefixOf l)

/-- Whether some line of `s` is a `# TYPE` line. -/
def hasTypeLine (s : String) : Bool :=
  (linesOf s.data).any (fun l => typeMarker.isPrefixOf l)

/-- The number of observed values that fall in (i.e. are `<=`) a bucket. -/
def bucketHits (vs : List JVal) (b : JVal) : Nat :=
  vs.countP (fun v => jle v b)

/-- A concrete `Summary` value, used to instantiate closed statements. -/
def sampleSummary : Summary :=
  { name := "s"
    description := none
    quantiles := [(JVal.num 1, JVal.num 0)]
    sum := JVal.num 0
    count := 0
    calculate := fun v _ => v }

/-! ### General lemmas about the model -/

theorem insertLe_perm {α : Type} (le : α → α → Bool) (x : α) (l : List α) :
    List.Perm (insertLe le x l) (x :: l) := by
  induction l with
  | nil => exact List.Perm.refl _
  | cons y ys ih =>
    unfold insertLe
    by_cases h : le x y
    · simp [h]
    · simp only [h, Bool.false_eq_true, if_false]
      exact (ih.cons y).trans (List.Perm.swap x y ys)

theorem sortLe_perm {α : Type} (le : α → α → Bool) (l : List α) :
    List.Perm (sortLe le l) l := by
  induction l with
  | nil => exact List.Perm.refl _
  | cons x xs ih => exact (insertLe_perm le x (sortLe le xs)).trans (ih.cons x)

theorem mem_sortLe {α : Type} (le : α → α → Bool) (l : List α) (a : α) :
    a ∈ sortLe le l ↔ a ∈ l :=
  (sortLe_perm le l).mem_iff

theorem pairwise_insertLe {α : Type} (le : α → α → Bool)
    (htrans : ∀ a b c, le a b = true → le b c = true → le a c = true)
    (htot : ∀ a b, le a b = true ∨ le b a = true)
    (x : α) (l : List α) (hl : l.Pairwise (fun a b => le a b = true)) :
    (insertLe le x l).Pairwise (fun a b => le a b = true) := by
  induction l with
  | nil => simp [insertLe]
  | cons y ys ih =>
    rcases List.pairwise_cons.mp hl with ⟨hy, hys⟩
    unfold insertLe
    by_cases h : le x y
    · simp only [h, if_true]
      refine List.pairwise_cons.mpr ⟨?_, hl⟩
      intro z hz
      rcases List.mem_cons.mp hz with hz | hz
      · exact hz ▸ h
      · exact htrans x y z h (hy z hz)
    · have hyx : le y x = true := (htot x y).resolve_left h
      simp only [h, Bool.false_eq_true, if_false]
      refine List.pairwise_cons.mpr ⟨?_, ih hys⟩
      intro z hz
      rcases List.mem_cons.mp ((insertLe_perm le x ys).mem_iff.mp hz) with hz | hz
      · exact hz ▸ hyx
      · exact hy z hz

theorem pairwise_sortLe {α : Type} (le : α → α → Bool)
    (htrans : ∀ a b c, le a b = true → le b c = true → le a c = true)
    (htot : ∀ a b, le a b = true ∨ le b a = true) (l : List α) :
    (sortLe le l).Pairwise (fun a b => le a b = true) := by
  induction l with
  | nil => simp [sortLe]
  | cons x xs ih => exact pairwise_insertLe le htrans htot x (sortLe le xs) ih

theorem jsortLe_trans (a b c : JVal) (h1 : jsortLe a b = true) (h2 : jsortLe b c = true) :
    jsortLe a c = true := by
  cases a <;> cases b <;> cases c <;> simp_all [jsortLe] <;> exact le_trans h1 h2

theorem jsortLe_total (a b : JVal) : jsortLe a b = true ∨ jsortLe b a = true := by
  cases a <;> cases b <;> simp [jsortLe] <;> exact le_total _ _

theorem jle_to_inf (v b : JVal) (h : jle v b = true) : jle v .inf = true := by
  cases v <;> cases b <;> simp_all [jle]

theorem jle_num_mono (q1 q2 : ℚ) (h : q1 ≤ q2) (v : JVal)
    (hv : jle v (.num q1) = true) : jle v (.num q2) = true := by
  cases v <;> simp_all [jle]
  exact le_trans hv h

theorem countP_mono {α : Type} (p q : α → Bool) (l : List α)
    (h : ∀ a ∈ l, p a = true → q a = true) : l.countP p ≤ l.countP q := by
  induction l with
  | nil => simp
  | cons x xs ih =>
    have hx := h x (List.mem_cons_self x xs)
    have ihs := ih (fun a ha => h a (List.mem_cons_of_mem x ha))
    by_cases hp : p x
    · simp [List.countP_cons, hp, hx hp]; omega
    · simp only [List.countP_cons, hp, Bool.false_eq_true, if_false]
      by_cases hq : q x <;> simp [hq] <;> omega

theorem dropWhile_dropWhile_self {α : Type} (p : α → Bool) (l : List α) :
    (l.dropWhile p).dropWhile p = l.dropWhile p := by
  induction l with
  | nil => rfl
  | cons x xs ih =>
    by_cases h : p x <;> simp [List.dropWhile_cons, h, ih]

theorem trimEnd_idem (s : String) : trimEnd (trimEnd s) = trimEnd s := by
  unfold trimEnd
  simp [dropWhile_dropWhile_self]

theorem replaceAllCh_append (a : Char) (b : List Char) (l1 l2 : List Char) :
    Metric.replaceAllCh a b (l1 ++ l2)
      = Metric.replaceAllCh a b l1 ++ Metric.replaceAllCh a b l2 := by
  simp [Metric.replaceAllCh]

/-- The whole five-step `replaceAll` pipeline of `cleanText`. -/
def cleanPipeline (l : List Char) : List Char :=
  Metric.replaceAllCh ')' [] (Metric.replaceAllCh '(' []
    (Metric.replaceAllCh ' ' ['_'] (Metric.replaceAllCh '/' ['_']
      (Metric.replaceAllCh '-' [] l))))

theorem cleanPipeline_append (l1 l2 : List Char) :
    cleanPipeline (l1 ++ l2) = cleanPipeline l1 ++ cleanPipeline l2 := by
  simp [cleanPipeline, replaceAllCh_append]

theorem cleanPipeline_single (c : Char) : cleanPipeline [c] = cleanCharSpec c := by
  by_cases h1 : c = '-'
  · subst h1; rfl
  by_cases h2 : c = '('
  · subst h2; rfl
  by_cases h3 : c = ')'
  · subst h3; rfl
  by_cases h4 : c = '/'
  · subst h4; rfl
  by_cases h5 : c = ' '
  · subst h5; rfl
  simp [cleanPipeline, Metric.replaceAllCh, cleanCharSpec, h1, h2, h3, h4, h5]

theorem cleanPipeline_eq_flatMap (l : List Char) :
    cleanPipeline l = l.flatMap cleanCharSpec := by
  induction l with
  | nil => rfl
  | cons c cs ih =>
    have : c :: cs = [c] ++ cs := rfl
    rw [this, cleanPipeline_append, cleanPipeline_single, List.flatMap_append, ih]
    simp

theorem cleanCharSpec_idem (c : Char) :
    (cleanCharSpec c).flatMap cleanCharSpec = cleanCharSpec c := by
  by_cases h1 : c = '-'
  · subst h1; rfl
  by_cases h2 : c = '('
  · subst h2; rfl
  by_cases h3 : c = ')'
  · subst h3; rfl
  by_cases h4 : c = '/'
  · subst h4; rfl
  by_cases h5 : c = ' '
  · subst h5; rfl
  simp [cleanCharSpec, h1, h2, h3, h4, h5]

theorem cleanText_eq_pipeline (s : String) :
    Metric.cleanText s = ⟨cleanPipeline s.data⟩ := rfl

/-! ### Claim theorems -/

/-- C7: `cleanText` removes every `-`, `(` and `)` and replaces every `/` and
space with `_` (all other characters kept in place, expressed as the
per-character `flatMap` of `cleanCharSpec`); it is idempotent; the empty
string maps to the empty string; absent input yields absent output. -/
theorem cleanText_spec (s : String) :
    Metric.cleanText s = ⟨s.data.flatMap cleanCharSpec⟩
    ∧ Metric.cleanText (Metric.cleanText s) = Metric.cleanText s
    ∧ Metric.cleanText "" = ""
    ∧ Metric.cleanTextOpt none = none := by
  refine ⟨by rw [cleanText_eq_pipeline, cleanPipeline_eq_flatMap], ?_, rfl, rfl⟩
  rw [cleanText_eq_pipeline, cleanText_eq_pipeline, cleanPipeline_eq_flatMap,
    cleanPipeline_eq_flatMap]
  show (⟨(s.data.flatMap cleanCharSpec).flatMap cleanCharSpec⟩ : String) = _
  rw [List.flatMap_assoc]
  simp only [cleanCharSpec_idem]

/-- C5: `concat` with `prometheus` format returns the rendered texts joined
by single newlines, unchanged; with `openmetrics` format the result is a
trailing-whitespace-free prefix followed by exactly `"\n# EOF"`. -/
theorem concat_framing (rendered : List String) :
    Metric.concat .prometheus rendered = String.intercalate "\n" rendered
    ∧ ∃ p, Metric.concat .openmetrics rendered = p ++ "\n# EOF" ∧ trimEnd p = p :=
  ⟨rfl, trimEnd (String.intercalate "\n" rendered), rfl,
    trimEnd_idem (String.intercalate "\n" rendered)⟩

/-- C10: `concat` of zero metrics yields the empty string for `prometheus`
and exactly a newline followed by `# EOF` for `openmetrics`. -/
theorem concat_empty :
    Metric.concat .prometheus [] = "" ∧ Metric.concat .openmetrics [] = "\n# EOF" :=
  ⟨rfl, rfl⟩

/-- C1 (amended): `observe` on a Histogram or Summary rejects exactly NaN
with the respective hard error, leaving the state unchanged (the error
carries no new state); on every non-NaN value — infinities included —
`observe` succeeds and delegates to `push`; `push` itself performs no
validation and always records the observation. -/
theorem observe_validates_nan (h : Histogram) (s : Summary) (v : JVal) :
    (v.isNaN = true →
      h.observe v = .error ("Invalid histogram value: " ++ numStr v)
      ∧ s.observe v = .error ("Invalid summary value: " ++ numStr v))
    ∧ (v.isNaN = false →
      h.observe v = .ok (h.push v) ∧ s.observe v = .ok (s.push v))
    ∧ (h.push v).count = h.count + 1
    ∧ (s.push v).count = s.count + 1 := by
  refine ⟨?_, ?_, rfl, rfl⟩ <;> intro hv <;>
    exact ⟨by simp [Histogram.observe, hv], by simp [Summary.observe, hv]⟩

theorem observe_validates_nan_witness :
    JVal.nan.isNaN = true
    ∧ (mkHistogram "h" none [] []).observe .nan
        = .error ("Invalid histogram value: " ++ numStr .nan)
    ∧ sampleSummary.observe .nan = .error ("Invalid summary value: " ++ numStr .nan) :=
  ⟨rfl, ((observe_validates_nan (mkHistogram "h" none [] []) sampleSummary .nan).1 rfl).1,
    ((observe_validates_nan (mkHistogram "h" none [] []) sampleSummary .nan).1 rfl).2⟩

/-- C1 counterexample: `observe(Infinity)` is a non-finite observation, yet
both the Histogram and the Summary accept it and update their state (the
validation only tests `isNaN`, not finiteness). -/
theorem observe_accepts_infinity :
    (mkHistogram "h" none [] []).observe .inf
      = .ok ((mkHistogram "h" none [] []).push .inf)
    ∧ ((mkHistogram "h" none [] []).push .inf).count = 1
    ∧ ((mkHistogram "h" none [] []).push .inf).sum = .inf
    ∧ sampleSummary.observe .inf = .ok (sampleSummary.push .inf)
    ∧ (sampleSummary.push .inf).count = 1 :=
  ⟨rfl, rfl, rfl, rfl, rfl⟩

/-- C4 (amended): the value normalizer maps a bare number to
`(v, {}, now)`; a two-element array to `(v, {}, ts)` or `(v, labels, now)`
depending on whether the second element is a number; a non-number non-array
entry to the fatal `Unexpected value format` error; and every array whose
length is not 2 — the well-formed three-element form, but also malformed
arrays of length 0, 1 or ≥ 4 — is passed through unchanged rather than
rejected. -/
theorem normalizer_shapes (now v t : JVal) (a : JItem) (ls : List (String × String))
    (xs : List JItem) :
    normalizeEntry now (.num v) = .ok [.num v, .obj [], .num now]
    ∧ normalizeEntry now (.arr [a, .num t]) = .ok [a, .obj [], .num t]
    ∧ normalizeEntry now (.arr [a, .obj ls]) = .ok [a, .obj ls, .num now]
    ∧ normalizeEntry now .other = .error "Unexpected value format"
    ∧ (xs.length ≠ 2 → normalizeEntry now (.arr xs) = .ok xs) := by
  refine ⟨rfl, rfl, rfl, rfl, ?_⟩
  intro hx
  rcases xs with _ | ⟨x, _ | ⟨y, _ | ⟨z, rest⟩⟩⟩
  · rfl
  · cases x <;> rfl
  · simp at hx
  · cases y <;> rfl

theorem normalizer_shapes_witness :
    ([JItem.num (JVal.num 40), .obj [("region", "eu")], .num (JVal.num 1500000000000)].length ≠ 2)
    ∧ normalizeEntry (JVal.num 0)
        (.arr [.num (JVal.num 40), .obj [("region", "eu")], .num (JVal.num 1500000000000)])
      = .ok [.num (JVal.num 40), .obj [("region", "eu")], .num (JVal.num 1500000000000)] :=
  ⟨by decide,
    (normalizer_shapes (JVal.num 0) (JVal.num 0) (JVal.num 0) (.num (JVal.num 0)) []
      [.num (JVal.num 40), .obj [("region", "eu")], .num (JVal.num 1500000000000)]).2.2.2.2
      (by decide)⟩

/-- C4 counterexample: a one-element array and an empty array match none of
the four accepted shapes, yet the normalizer returns them unchanged
(`.ok`) instead of raising the `unexpected value format` error. -/
theorem normalizer_malformed_passthrough :
    normalizeEntry (JVal.num 0) (.arr [.num (JVal.num 7)]) = .ok [.num (JVal.num 7)]
    ∧ normalizeEntry (JVal.num 0) (.arr []) = .ok [] :=
  ⟨rfl, rfl⟩

theorem mapSet_length_le (m : List (JVal × JVal)) (k v : JVal) :
    m.length ≤ (mapSet m k v).length := by
  unfold mapSet
  by_cases h : m.any (fun p => p.1 == k) <;> simp [h]

theorem foldl_mapSet_length (qs : List JVal) (m : List (JVal × JVal)) :
    m.length ≤ (qs.foldl (fun m q => mapSet m q (.num 0)) m).length := by
  induction qs generalizing m with
  | nil => simp
  | cons q rest ih =>
    exact le_trans (mapSet_length_le m q (.num 0)) (ih (mapSet m q (.num 0)))

/-- C8: constructing a Summary with an empty quantile list fails with the
construction error, and every successfully constructed Summary has at least
one entry in its quantile table. -/
theorem summary_nonempty_quantiles (name : String) (desc : Option String)
    (f : JVal → JVal → JVal) :
    mkSummary name desc [] f = .error "Summary must have at least one quantile"
    ∧ ∀ (qs : List JVal) (s : Summary),
        mkSummary name desc qs f = .ok s → 1 ≤ s.quantiles.length := by
  refine ⟨rfl, ?_⟩
  intro qs s h
  unfold mkSummary at h
  rcases qs with _ | ⟨q, rest⟩
  · simp at h
  · simp only [List.isEmpty_cons, if_false, Except.ok.injEq, Bool.false_eq_true] at h
    subst h
    simp only [List.foldl_cons]
    calc 1 = (mapSet [] q (.num 0)).length := by rfl
      _ ≤ _ := foldl_mapSet_length rest _

theorem mapSet_zero_all (qs : List JVal) (m : List (JVal × JVal))
    (hm : ∀ p ∈ m, p.2 = JVal.num 0) :
    ∀ p ∈ qs.foldl (fun m q => mapSet m q (.num 0)) m, p.2 = JVal.num 0 := by
  induction qs generalizing m with
  | nil => simpa using hm
  | cons q rest ih =>
    simp only [List.foldl_cons]
    apply ih
    intro p hp
    unfold mapSet at hp
    by_cases h : m.any (fun p => p.1 == q)
    · simp only [h, if_true, List.mem_map] at hp
      rcases hp with ⟨p', hp', he⟩
      by_cases h2 : p'.1 == q
      · rw [if_pos h2] at he
        rw [← he]
      · rw [if_neg h2] at he
        exact he ▸ hm p' hp'
    · simp only [h, Bool.false_eq_true, if_false, List.mem_append, List.mem_singleton] at hp
      rcases hp with hp | hp
      · exact hm p hp
      · rw [hp]

/-- C9: a freshly constructed Summary has every configured quantile's stored
estimate equal to 0, so its first render produces, for each quantile, an
estimate line ending in the value `0`. -/
theorem summary_initial_estimates (name : String) (desc : Option String)
    (qs : List JVal) (f : JVal → JVal → JVal) (s : Summary)
    (h : mkSummary name desc qs f = .ok s) :
    (∀ p ∈ s.quantiles, p.2 = JVal.num 0)
    ∧ Summary.quantileLines s
        = (sortLe (fun p q => jsortLe p.1 q.1) s.quantiles).map
            (fun p => s.name ++ Metric.labelString [("quantile", numStr p.1)] ++ " " ++ "0") := by
  have hq : ∀ p ∈ s.quantiles, p.2 = JVal.num 0 := by
    unfold mkSummary at h
    by_cases he : qs.isEmpty
    · simp [he] at h
    · simp only [he, Bool.false_eq_true, if_false, Except.ok.injEq] at h
      intro p hp
      exact mapSet_zero_all qs [] (by simp) p (by rw [← h] at hp; exact hp)
  refine ⟨hq, ?_⟩
  unfold Summary.quantileLines
  apply List.map_congr_left
  intro p hp
  have hmem : p ∈ s.quantiles := (mem_sortLe _ s.quantiles p).mp hp
  rw [hq p hmem]
  rfl

theorem summary_initial_estimates_witness :
    mkSummary "s" none [JVal.num 1] (fun v _ => v) = .ok sampleSummary
    ∧ (∀ p ∈ sampleSummary.quantiles, p.2 = JVal.num 0)
    ∧ Summary.quantileLines sampleSummary
        = (sortLe (fun p q => jsortLe p.1 q.1) sampleSummary.quantiles).map
            (fun p => sampleSummary.name
              ++ Metric.labelString [("quantile", numStr p.1)] ++ " " ++ "0") :=
  ⟨rfl, (summary_initial_estimates "s" none [JVal.num 1] (fun v _ => v) sampleSummary rfl).1,
    (summary_initial_estimates "s" none [JVal.num 1] (fun v _ => v) sampleSummary rfl).2⟩

theorem summary_nonempty_quantiles_witness :
    mkSummary "s" none [] (fun v _ => v) = .error "Summary must have at least one quantile"
    ∧ mkSummary "s" none [JVal.num 1] (fun v _ => v) = .ok sampleSummary
    ∧ 1 ≤ sampleSummary.quantiles.length :=
  ⟨(summary_nonempty_quantiles "s" none (fun v _ => v)).1, rfl,
    (summary_nonempty_quantiles "s" none (fun v _ => v)).2 [JVal.num 1] sampleSummary rfl⟩

theorem isPrefixOf_append_self (l t : List Char) : l.isPrefixOf (l ++ t) = true := by
  induction l with
  | nil => simp
  | cons c cs ih => simp [List.isPrefixOf, ih]

theorem isPrefixOf_ne_same_length (m1 m2 : List Char) (hlen : m1.length = m2.length)
    (hne : m1 ≠ m2) (rest : List Char) : m1.isPrefixOf (m2 ++ rest) = false := by
  induction m1 generalizing m2 with
  | nil =>
    cases m2 with
    | nil => exact absurd rfl hne
    | cons b bs => simp at hlen
  | cons a as ih =>
    cases m2 with
    | nil => simp at hlen
    | cons b bs =>
      by_cases hab : a = b
      · subst hab
        have hne2 : as ≠ bs := fun hh => hne (by rw [hh])
        simp [List.isPrefixOf, ih bs (by simpa using hlen) hne2]
      · simp [List.isPrefixOf, hab]

theorem linesOf_cons (c : Char) (cs : List Char) :
    linesOf (c :: cs) = if c = '\n' then [] :: linesOf cs
      else (c :: (linesOf cs).headD []) :: (linesOf cs).tail := rfl

theorem linesOf_ne_nil (l : List Char) : linesOf l ≠ [] := by
  induction l with
  | nil => simp [linesOf]
  | cons c cs ih => rw [linesOf_cons]; split <;> simp

theorem linesOf_append_of_no_newline (xs ys : List Char) (hx : '\n' ∉ xs) :
    linesOf (xs ++ ys) = (xs ++ (linesOf ys).headD []) :: (linesOf ys).tail := by
  induction xs with
  | nil =>
    simp only [List.nil_append]
    obtain ⟨hd, tl, e⟩ := List.exists_cons_of_ne_nil (linesOf_ne_nil ys)
    rw [e]
    rfl
  | cons c cs ih =>
    have hc : c ≠ '\n' := fun hh => hx (hh ▸ List.mem_cons_self c cs)
    have hcs : '\n' ∉ cs := fun hh => hx (List.mem_cons_of_mem c hh)
    simp only [List.cons_append]
    rw [linesOf_cons, if_neg hc, ih hcs]
    simp

theorem linesOf_newline_cons (ys : List Char) : linesOf ('\n' :: ys) = [] :: linesOf ys := by
  rw [linesOf_cons, if_pos rfl]

theorem linesOf_line_append (xs ys : List Char) (hx : '\n' ∉ xs) :
    linesOf (xs ++ '\n' :: ys) = xs :: linesOf ys := by
  rw [linesOf_append_of_no_newline xs ('\n' :: ys) hx, linesOf_newline_cons]
  simp

theorem no_newline_helpLine (nm dd : List Char) (hn : '\n' ∉ nm) (hd : '\n' ∉ dd) :
    '\n' ∉ helpMarker ++ nm ++ ' ' :: dd := by
  simp only [List.mem_append, List.mem_cons, not_or]
  exact ⟨⟨by decide, hn⟩, by decide, hd⟩

theorem no_newline_typeLine (nm tt : List Char) (hn : '\n' ∉ nm) (ht : '\n' ∉ tt) :
    '\n' ∉ typeMarker ++ nm ++ ' ' :: tt := by
  simp only [List.mem_append, List.mem_cons, not_or]
  exact ⟨⟨by decide, hn⟩, by decide, ht⟩

theorem helpLine_data (nm dd : String) :
    ("# HELP " ++ nm ++ " " ++ dd ++ "\n").data
      = (helpMarker ++ nm.data ++ ' ' :: dd.data) ++ ['\n'] := by
  simp only [String.data_append]
  simp [helpMarker]

theorem typeLine_data (nm tt : String) :
    ("# TYPE " ++ nm ++ " " ++ tt ++ "\n").data
      = (typeMarker ++ nm.data ++ ' ' :: tt.data) ++ ['\n'] := by
  simp only [String.data_append]
  simp [typeMarker]

theorem helpMarker_not_typePrefix (rest : List Char) :
    typeMarker.isPrefixOf (helpMarker ++ rest) = false :=
  isPrefixOf_ne_same_length typeMarker helpMarker (by decide) (by decide) rest

theorem typeMarker_not_helpPrefix (rest : List Char) :
    helpMarker.isPrefixOf (typeMarker ++ rest) = false :=
  isPrefixOf_ne_same_length helpMarker typeMarker (by decide) (by decide) rest

theorem str_no_newline (ty : MetricType) : '\n' ∉ (MetricType.str ty).data := by
  cases ty <;> decide

/-- C6 (amended): for newline-free names and descriptions, the rendered
header contains a `# HELP` line exactly when the name and the description
are both present and non-empty (JS truthiness of `this.name` and
`this.description`), and contains a `# TYPE` line exactly when the kind is
not `untyped`. -/
theorem generateHeader_lines (ty : MetricType) (name : String) (desc : Option String)
    (hn : '\n' ∉ name.data) (hd : '\n' ∉ (desc.getD "").data) :
    (hasHelpLine (Metric.generateHeader ty name desc) = true
      ↔ (name ≠ "" ∧ desc.getD "" ≠ ""))
    ∧ (hasTypeLine (Metric.generateHeader ty name desc) = true ↔ ty ≠ .untyped) := by
  have hH1 := no_newline_helpLine name.data (desc.getD "").data hn hd
  have hT1 := no_newline_typeLine name.data (MetricType.str ty).data hn (str_no_newline ty)
  have f1 : helpMarker.isPrefixOf (helpMarker ++ name.data ++ ' ' :: (desc.getD "").data)
      = true := by
    rw [List.append_assoc]; exact isPrefixOf_append_self _ _
  have f2 : typeMarker.isPrefixOf (helpMarker ++ name.data ++ ' ' :: (desc.getD "").data)
      = false := by
    rw [List.append_assoc]; exact helpMarker_not_typePrefix _
  have f3 : helpMarker.isPrefixOf
      (typeMarker ++ name.data ++ ' ' :: (MetricType.str ty).data) = false := by
    rw [List.append_assoc]; exact typeMarker_not_helpPrefix _
  have f4 : typeMarker.isPrefixOf
      (typeMarker ++ name.data ++ ' ' :: (MetricType.str ty).data) = true := by
    rw [List.append_assoc]; exact isPrefixOf_append_self _ _
  have f5 : helpMarker.isPrefixOf ([] : List Char) = false := rfl
  have f6 : typeMarker.isPrefixOf ([] : List Char) = false := rfl
  unfold Metric.generateHeader
  by_cases hH : name ≠ "" ∧ desc.getD "" ≠ "" <;> by_cases hT : ty ≠ .untyped
  · rw [if_pos hH, if_pos hT]
    have e : linesOf ((("# HELP " ++ name ++ " " ++ desc.getD "" ++ "\n")
        ++ ("# TYPE " ++ name ++ " " ++ ty.str ++ "\n")).data)
        = (helpMarker ++ name.data ++ ' ' :: (desc.getD "").data)
          :: (typeMarker ++ name.data ++ ' ' :: (MetricType.str ty).data) :: [[]] := by
      rw [String.data_append, helpLine_data, typeLine_data]
      have e2 : ((helpMarker ++ name.data ++ ' ' :: (desc.getD "").data) ++ ['\n'])
          ++ ((typeMarker ++ name.data ++ ' ' :: (MetricType.str ty).data) ++ ['\n'])
          = (helpMarker ++ name.data ++ ' ' :: (desc.getD "").data)
            ++ '\n' :: ((typeMarker ++ name.data ++ ' ' :: (MetricType.str ty).data)
              ++ '\n' :: []) := by
        simp
      rw [e2, linesOf_line_append _ _ hH1, linesOf_line_append _ _ hT1]
      rfl
    unfold hasHelpLine hasTypeLine
    rw [e]
    constructor
    · simp only [List.any_cons, List.any_nil, f1, f2, f3, f4, f5, f6, Bool.or_false, Bool.or_true,
        Bool.true_or, Bool.false_or]
      simp [hH]
    · simp only [List.any_cons, List.any_nil, f1, f2, f3, f4, f5, f6, Bool.or_false, Bool.or_true,
        Bool.true_or, Bool.false_or]
      simp [hT]
  · rw [if_pos hH, if_neg hT]
    have e : linesOf ((("# HELP " ++ name ++ " " ++ desc.getD "" ++ "\n") ++ "").data)
        = (helpMarker ++ name.data ++ ' ' :: (desc.getD "").data) :: [[]] := by
      rw [String.data_append, helpLine_data]
      have e2 : ((helpMarker ++ name.data ++ ' ' :: (desc.getD "").data) ++ ['\n'])
          ++ ("" : String).data
          = (helpMarker ++ name.data ++ ' ' :: (desc.getD "").data) ++ '\n' :: [] := by
        simp
      rw [e2, linesOf_line_append _ _ hH1]
      rfl
    unfold hasHelpLine hasTypeLine
    rw [e]
    constructor
    · simp only [List.any_cons, List.any_nil, f1, f2, f5, f6, Bool.or_false, Bool.or_true,
        Bool.true_or, Bool.false_or]
      simp [hH]
    · simp only [List.any_cons, List.any_nil, f1, f2, f5, f6, Bool.or_false, Bool.or_true,
        Bool.true_or, Bool.false_or]
      simp [hT]
  · rw [if_neg hH, if_pos hT]
    have e : linesOf ((("" : String) ++ ("# TYPE " ++ name ++ " " ++ ty.str ++ "\n")).data)
        = (typeMarker ++ name.data ++ ' ' :: (MetricType.str ty).data) :: [[]] := by
      rw [String.data_append, typeLine_data]
      have e2 : ("" : String).data
          ++ ((typeMarker ++ name.data ++ ' ' :: (MetricType.str ty).data) ++ ['\n'])
          = (typeMarker ++ name.data ++ ' ' :: (MetricType.str ty).data) ++ '\n' :: [] := by
        simp
      rw [e2, linesOf_line_append _ _ hT1]
      rfl
    unfold hasHelpLine hasTypeLine
    rw [e]
    constructor
    · simp only [List.any_cons, List.any_nil, f3, f4, f5, f6, Bool.or_false, Bool.or_true,
        Bool.true_or, Bool.false_or]
      simp [hH]
    · simp only [List.any_cons, List.any_nil, f3, f4, f5, f6, Bool.or_false, Bool.or_true,
        Bool.true_or, Bool.false_or]
      simp [hT]
  · rw [if_neg hH, if_neg hT]
    have e : linesOf ((("" : String) ++ ("" : String)).data) = [([] : List Char)] := rfl
    unfold hasHelpLine hasTypeLine
    rw [e]
    constructor
    · simp only [List.any_cons, List.any_nil, f5, f6, Bool.or_false, Bool.or_true,
        Bool.true_or, Bool.false_or]
      simp [hH]
    · simp only [List.any_cons, List.any_nil, f5, f6, Bool.or_false, Bool.or_true,
        Bool.true_or, Bool.false_or]
      simp [hT]

theorem generateHeader_lines_witness :
    ('\n' ∉ ("requests" : String).data)
    ∧ ('\n' ∉ ((some "Total requests" : Option String).getD "").data)
    ∧ (hasHelpLine (Metric.generateHeader .gauge "requests" (some "Total requests")) = true
        ↔ (("requests" : String) ≠ ""
            ∧ (some "Total requests" : Option String).getD "" ≠ ""))
    ∧ (hasTypeLine (Metric.generateHeader .gauge "requests" (some "Total requests")) = true
        ↔ MetricType.gauge ≠ .untyped) :=
  ⟨by decide, by decide,
    (generateHeader_lines .gauge "requests" (some "Total requests") (by decide) (by decide)).1,
    (generateHeader_lines .gauge "requests" (some "Total requests") (by decide) (by decide)).2⟩

/-- C6 counterexample: a metric whose name sanitized to the empty string
(e.g. `new Gauge({name: "()", description: "d", ...})`) has a present
description, yet its header contains no `# HELP` line — the source guards
the HELP line on `this.name && this.description`, not on the description
alone. -/
theorem generateHeader_help_suppressed :
    Metric.cleanText "()" = ""
    ∧ (some "d" : Option String).isSome = true
    ∧ hasHelpLine (Metric.generateHeader .gauge (Metric.cleanText "()") (some "d")) = false
    ∧ hasTypeLine (Metric.generateHeader .gauge (Metric.cleanText "()") (some "d")) = true := by
  refine ⟨rfl, rfl, ?_, ?_⟩ <;> decide

theorem recGet_recSet_self (m : List (JVal × Nat)) (k : JVal) (v : Nat) :
    recGet (recSet m k v) k = v := by
  unfold recSet recGet
  by_cases hm : m.any (fun p => p.1 == k)
  · rw [if_pos hm, List.find?_map]
    have hpf : ((fun p : JVal × Nat => p.1 == k) ∘ fun p => if p.1 == k then (k, v) else p)
        = fun p : JVal × Nat => p.1 == k := by
      funext p
      by_cases hp : (p.1 == k) = true <;> simp [Function.comp, hp]
    rw [hpf]
    cases hfind : m.find? (fun p => p.1 == k) with
    | none =>
      rw [List.find?_eq_none] at hfind
      obtain ⟨q0, hq0mem, hq0⟩ := List.any_eq_true.mp hm
      exact absurd hq0 (hfind q0 hq0mem)
    | some a =>
      have hak := List.find?_some hfind
      simp only [] at hak
      have hk : a.1 = k := by simpa using hak
      simp [hak, hk]
  · rw [if_neg hm, List.find?_append]
    have h1 : m.find? (fun p => p.1 == k) = none := by
      rw [List.find?_eq_none]
      intro x hx hpx
      exact hm (List.any_eq_true.mpr ⟨x, hx, hpx⟩)
    rw [h1]
    simp

theorem recGet_recSet_ne (m : List (JVal × Nat)) (k k' : JVal) (v : Nat) (hne : k' ≠ k) :
    recGet (recSet m k v) k' = recGet m k' := by
  unfold recSet recGet
  by_cases hm : m.any (fun p => p.1 == k)
  · rw [if_pos hm, List.find?_map]
    have hpf : ((fun p : JVal × Nat => p.1 == k') ∘ fun p => if p.1 == k then (k, v) else p)
        = fun p : JVal × Nat => p.1 == k' := by
      funext p
      by_cases hp : (p.1 == k) = true
      · have hpk : p.1 = k := by simpa using hp
        simp [Function.comp, hp, hpk, hne.symm, Ne.symm hne]
      · simp [Function.comp, hp]
    rw [hpf]
    cases hfind : m.find? (fun p => p.1 == k') with
    | none => simp
    | some a =>
      have ha := List.find?_some hfind
      simp only [] at ha
      have hak : a.1 ≠ k := by
        have hk' : a.1 = k' := by simpa using ha
        rw [hk']
        exact hne
      simp [hak]
  · rw [if_neg hm, List.find?_append]
    cases hfind : m.find? (fun p => p.1 == k') with
    | none => simp [hne, Ne.symm hne]
    | some a => simp

theorem recGet_recInc_self (m : List (JVal × Nat)) (k : JVal) :
    recGet (recInc m k) k = recGet m k + 1 :=
  recGet_recSet_self m k (recGet m k + 1)

theorem recGet_recInc_ne (m : List (JVal × Nat)) (k k' : JVal) (hne : k' ≠ k) :
    recGet (recInc m k) k' = recGet m k' :=
  recGet_recSet_ne m k k' (recGet m k + 1) hne

theorem foldPush_get_notMem (v : JVal) (B : List JVal) :
    ∀ (m : List (JVal × Nat)) (b : JVal), b ∉ B →
      recGet (B.foldl (fun m x => if jle v x then recInc m x else m) m) b = recGet m b := by
  induction B with
  | nil => intro m b _; rfl
  | cons x rest ih =>
    intro m b hb
    have hbx : b ≠ x := fun hh => hb (hh ▸ List.mem_cons_self x rest)
    have hbr : b ∉ rest := fun hh => hb (List.mem_cons_of_mem x hh)
    simp only [List.foldl_cons]
    rw [ih _ b hbr]
    by_cases hx : jle v x <;> simp [hx, recGet_recInc_ne _ _ _ hbx]

theorem foldPush_get_mem (v : JVal) (B : List JVal) :
    ∀ (m : List (JVal × Nat)) (b : JVal), B.Nodup → b ∈ B →
      recGet (B.foldl (fun m x => if jle v x then recInc m x else m) m) b
        = recGet m b + (if jle v b then 1 else 0) := by
  induction B with
  | nil => intro m b _ hb; cases hb
  | cons x rest ih =>
    intro m b hB hb
    rcases List.nodup_cons.mp hB with ⟨hxr, hrest⟩
    simp only [List.foldl_cons]
    rcases List.mem_cons.mp hb with hbx | hbr
    · subst hbx
      rw [foldPush_get_notMem v rest _ b hxr]
      by_cases hx : jle v b <;> simp [hx, recGet_recInc_self]
    · have hbx : b ≠ x := fun hh => hxr (hh ▸ hbr)
      rw [ih _ b hrest hbr]
      by_cases hx : jle v x <;> simp [hx, recGet_recInc_ne _ _ _ hbx]

theorem foldReset_get_notMem (B : List JVal) :
    ∀ (m : List (JVal × Nat)) (b : JVal), b ∉ B →
      recGet (B.foldl (fun m x => recSet m x 0) m) b = recGet m b := by
  induction B with
  | nil => intro m b _; rfl
  | cons x rest ih =>
    intro m b hb
    have hbx : b ≠ x := fun hh => hb (hh ▸ List.mem_cons_self x rest)
    have hbr : b ∉ rest := fun hh => hb (List.mem_cons_of_mem x hh)
    simp only [List.foldl_cons]
    rw [ih _ b hbr, recGet_recSet_ne _ _ _ _ hbx]

theorem foldReset_get_mem (B : List JVal) :
    ∀ (m : List (JVal × Nat)) (b : JVal), b ∈ B →
      recGet (B.foldl (fun m x => recSet m x 0) m) b = 0 := by
  induction B with
  | nil => intro m b hb; cases hb
  | cons x rest ih =>
    intro m b hb
    simp only [List.foldl_cons]
    by_cases hbr : b ∈ rest
    · exact ih _ b hbr
    · have hbx : b = x := by
        rcases List.mem_cons.mp hb with hh | hh
        · exact hh
        · exact absurd hh hbr
      subst hbx
      rw [foldReset_get_notMem rest _ b hbr, recGet_recSet_self]

theorem pushAll_buckets (vs : List JVal) :
    ∀ h : Histogram, (pushAll h vs).buckets = h.buckets := by
  induction vs with
  | nil => intro h; rfl
  | cons v rest ih => intro h; exact ih (h.push v)

theorem pushAll_count (vs : List JVal) :
    ∀ h : Histogram, (pushAll h vs).count = h.count + vs.length := by
  induction vs with
  | nil => intro h; rfl
  | cons v rest ih =>
    intro h
    have e : pushAll h (v :: rest) = pushAll (h.push v) rest := rfl
    rw [e, ih (h.push v)]
    show h.count + 1 + rest.length = h.count + (rest.length + 1)
    omega

theorem pushAll_get (vs : List JVal) :
    ∀ (h : Histogram) (b : JVal), h.buckets.Nodup → b ∈ h.buckets →
      recGet (pushAll h vs).bucketCounts b = recGet h.bucketCounts b + bucketHits vs b := by
  induction vs with
  | nil => intro h b _ _; simp [pushAll, bucketHits]
  | cons v rest ih =>
    intro h b hB hb
    have e : pushAll h (v :: rest) = pushAll (h.push v) rest := rfl
    rw [e, ih (h.push v) b hB hb]
    have e2 : recGet (h.push v).bucketCounts b
        = recGet h.bucketCounts b + (if jle v b then 1 else 0) :=
      foldPush_get_mem v h.buckets h.bucketCounts b hB hb
    rw [e2]
    by_cases hx : jle v b <;> simp [bucketHits, List.countP_cons, hx] <;> omega

theorem observeAll_eq_pushAll (vs : List JVal) :
    ∀ h : Histogram, (∀ v ∈ vs, v.isNaN = false) →
      observeAll h vs = .ok (pushAll h vs) := by
  induction vs with
  | nil => intro h _; rfl
  | cons v rest ih =>
    intro h hv
    have hv0 : v.isNaN = false := hv v (List.mem_cons_self v rest)
    have e : observeAll h (v :: rest)
        = (h.observe v).bind (fun h2 => observeAll h2 rest) := rfl
    rw [e]
    simp only [Histogram.observe, hv0, Bool.false_eq_true, if_false, Except.bind]
    exact ih (h.push v) (fun w hw => hv w (List.mem_cons_of_mem v hw))

theorem mkHistogram_buckets (name : String) (desc : Option String) (bs : List JVal)
    (ls : List (String × String)) :
    (mkHistogram name desc bs ls).buckets = sortLe jsortLe bs ++ [.inf] := rfl

theorem mkHistogram_get (name : String) (desc : Option String) (bs : List JVal)
    (ls : List (String × String)) (b : JVal) (hb : b ∈ sortLe jsortLe bs ++ [JVal.inf]) :
    recGet (mkHistogram name desc bs ls).bucketCounts b = 0 :=
  foldReset_get_mem (sortLe jsortLe bs ++ [JVal.inf]) [] b hb

theorem mkHistogram_nodup (bs : List ℚ) (hb : bs.Nodup) :
    (sortLe jsortLe (bs.map JVal.num) ++ [JVal.inf]).Nodup := by
  have h1 : (bs.map JVal.num).Nodup := hb.map (fun a b hh => by injection hh)
  have h2 : (sortLe jsortLe (bs.map JVal.num)).Nodup :=
    ((sortLe_perm jsortLe (bs.map JVal.num)).nodup_iff).mpr h1
  refine h2.append (List.nodup_singleton _) ?_
  intro a ha ha'
  have : a = JVal.inf := by simpa using ha'
  subst this
  have : JVal.inf ∈ bs.map JVal.num := (mem_sortLe jsortLe _ _).mp ha
  simp at this

theorem histogram_counts_pairwise (bs : List ℚ) (vs : List JVal) :
    (sortLe jsortLe (bs.map JVal.num) ++ [JVal.inf]).Pairwise
      (fun a b => bucketHits vs a ≤ bucketHits vs b) := by
  have hs : (sortLe jsortLe (bs.map JVal.num)).Pairwise (fun a b => jsortLe a b = true) :=
    pairwise_sortLe jsortLe jsortLe_trans jsortLe_total _
  rw [List.pairwise_append]
  refine ⟨?_, List.pairwise_singleton _ _, ?_⟩
  · refine hs.imp_of_mem ?_
    intro a b ha hb hab
    obtain ⟨qa, _, rfl⟩ := List.mem_map.mp ((mem_sortLe jsortLe _ _).mp ha)
    obtain ⟨qb, _, rfl⟩ := List.mem_map.mp ((mem_sortLe jsortLe _ _).mp hb)
    apply countP_mono
    intro v _ hva
    exact jle_num_mono qa qb (by simpa [jsortLe] using hab) v hva
  · intro a _ b hb
    have : b = JVal.inf := by simpa using hb
    subst this
    apply countP_mono
    intro v _ hva
    exact jle_to_inf v a hva

/-- C2 (amended): for a Histogram constructed with pairwise-distinct finite
bucket thresholds, after any sequence of successful `observe` calls on valid
(non-NaN) values, the count recorded for the `+Inf` bucket equals the total
observation count, and the per-threshold counts are non-decreasing in
ascending threshold (i.e. `_buckets`) order. -/
theorem histogram_invariant (name : String) (desc : Option String)
    (ls : List (String × String)) (bs : List ℚ) (hb : bs.Nodup) (vs : List JVal)
    (hv : ∀ v ∈ vs, v.isNaN = false) :
    observeAll (mkHistogram name desc (bs.map JVal.num) ls) vs
      = .ok (pushAll (mkHistogram name desc (bs.map JVal.num) ls) vs)
    ∧ recGet (pushAll (mkHistogram name desc (bs.map JVal.num) ls) vs).bucketCounts .inf
      = (pushAll (mkHistogram name desc (bs.map JVal.num) ls) vs).count
    ∧ List.Chain' (· ≤ ·)
        (bucketCountList (pushAll (mkHistogram name desc (bs.map JVal.num) ls) vs)) := by
  have hBn : (mkHistogram name desc (bs.map JVal.num) ls).buckets.Nodup := by
    rw [mkHistogram_buckets]
    exact mkHistogram_nodup bs hb
  have hInfMem : JVal.inf ∈ (mkHistogram name desc (bs.map JVal.num) ls).buckets := by
    rw [mkHistogram_buckets]
    simp
  refine ⟨observeAll_eq_pushAll vs _ hv, ?_, ?_⟩
  · rw [pushAll_get vs _ .inf hBn hInfMem,
      mkHistogram_get name desc _ ls .inf (by simpa [mkHistogram_buckets] using hInfMem),
      pushAll_count]
    have hlen : bucketHits vs .inf = vs.length := by
      unfold bucketHits
      rw [List.countP_eq_length]
      intro v hvm
      have hnn := hv v hvm
      cases v <;> simp_all [jle, JVal.isNaN]
    rw [hlen]
    rfl
  · have hmap : bucketCountList (pushAll (mkHistogram name desc (bs.map JVal.num) ls) vs)
        = (sortLe jsortLe (bs.map JVal.num) ++ [JVal.inf]).map (bucketHits vs) := by
      unfold bucketCountList
      rw [pushAll_buckets, mkHistogram_buckets]
      apply List.map_congr_left
      intro b hbm
      rw [pushAll_get vs _ b hBn (by simpa [mkHistogram_buckets] using hbm),
        mkHistogram_get name desc _ ls b hbm]
      simp
    rw [hmap]
    exact (List.pairwise_map.mpr (histogram_counts_pairwise bs vs)).chain'

theorem histogram_invariant_witness :
    ([(10 : ℚ), 50]).Nodup
    ∧ (∀ v ∈ [JVal.num 30, JVal.num 60], v.isNaN = false)
    ∧ recGet (pushAll (mkHistogram "lat" none ([(10 : ℚ), 50].map JVal.num) [])
          [JVal.num 30, JVal.num 60]).bucketCounts .inf
      = (pushAll (mkHistogram "lat" none ([(10 : ℚ), 50].map JVal.num) [])
          [JVal.num 30, JVal.num 60]).count
    ∧ List.Chain' (· ≤ ·)
        (bucketCountList (pushAll (mkHistogram "lat" none ([(10 : ℚ), 50].map JVal.num) [])
          [JVal.num 30, JVal.num 60])) :=
  ⟨by decide, by decide,
    (histogram_invariant "lat" none [] [(10 : ℚ), 50] (by decide)
      [JVal.num 30, JVal.num 60] (by decide)).2.1,
    (histogram_invariant "lat" none [] [(10 : ℚ), 50] (by decide)
      [JVal.num 30, JVal.num 60] (by decide)).2.2⟩

/-- C2 counterexample: a Histogram constructed with `buckets: [Infinity]`
gets the internal threshold list `[Infinity, Infinity]` (the constructor
unconditionally appends `+Inf`), so a single valid `observe(1)` increments
the one shared `+Inf` record cell twice: `bucketCounts[+Inf] = 2` while
`count = 1`, refuting `bucketCounts[+∞] == count` for that Histogram. -/
theorem histogram_inf_bucket_breaks_invariant :
    (observeAll (mkHistogram "h" none [JVal.inf] []) [JVal.num 1]).isOk = true
    ∧ (pushAll (mkHistogram "h" none [JVal.inf] []) [JVal.num 1]).count = 1
    ∧ recGet (pushAll (mkHistogram "h" none [JVal.inf] []) [JVal.num 1]).bucketCounts .inf
        = 2 := by
  refine ⟨rfl, rfl, by decide⟩

/-- C3 (amended): on a Histogram whose internal bucket list has no duplicate
thresholds, a successful `observe(v)` of a valid value adds `v` to the sum,
increments the count by one, and increments the stored count of every bucket
threshold `t` with `v <= t` by exactly one; the `[10, 50, 100]` /
`30, 80, 120` example yields cumulative bucket counts 0, 1, 2, 3, sum 230
and count 3. -/
theorem observe_updates (h : Histogram) (v : JVal) (hnd : h.buckets.Nodup)
    (hv : v.isNaN = false) :
    h.observe v = .ok (h.push v)
    ∧ (h.push v).sum = jadd h.sum v
    ∧ (h.push v).count = h.count + 1
    ∧ (∀ b ∈ h.buckets, recGet (h.push v).bucketCounts b
        = recGet h.bucketCounts b + (if jle v b then 1 else 0))
    ∧ (recGet (pushAll (mkHistogram "h" none [JVal.num 10, JVal.num 50, JVal.num 100] [])
          [JVal.num 30, JVal.num 80, JVal.num 120]).bucketCounts (JVal.num 10) = 0
      ∧ recGet (pushAll (mkHistogram "h" none [JVal.num 10, JVal.num 50, JVal.num 100] [])
          [JVal.num 30, JVal.num 80, JVal.num 120]).bucketCounts (JVal.num 50) = 1
      ∧ recGet (pushAll (mkHistogram "h" none [JVal.num 10, JVal.num 50, JVal.num 100] [])
          [JVal.num 30, JVal.num 80, JVal.num 120]).bucketCounts (JVal.num 100) = 2
      ∧ recGet (pushAll (mkHistogram "h" none [JVal.num 10, JVal.num 50, JVal.num 100] [])
          [JVal.num 30, JVal.num 80, JVal.num 120]).bucketCounts .inf = 3
      ∧ (pushAll (mkHistogram "h" none [JVal.num 10, JVal.num 50, JVal.num 100] [])
          [JVal.num 30, JVal.num 80, JVal.num 120]).sum = JVal.num 230
      ∧ (pushAll (mkHistogram "h" none [JVal.num 10, JVal.num 50, JVal.num 100] [])
          [JVal.num 30, JVal.num 80, JVal.num 120]).count = 3) := by
  refine ⟨by simp [Histogram.observe, hv], rfl, rfl, ?_, ?_⟩
  · intro b hbm
    exact foldPush_get_mem v h.buckets h.bucketCounts b hnd hbm
  · refine ⟨by decide, by decide, by decide, by decide, ?_, by decide⟩
    norm_num [pushAll, mkHistogram, Histogram.push, Histogram.reset, sortLe, insertLe,
      jsortLe, jadd, jle, recInc, recSet, recGet]

theorem observe_updates_witness :
    (mkHistogram "w" none [JVal.num 2] []).buckets.Nodup
    ∧ (JVal.num 1).isNaN = false
    ∧ (mkHistogram "w" none [JVal.num 2] []).observe (JVal.num 1)
        = .ok ((mkHistogram "w" none [JVal.num 2] []).push (JVal.num 1))
    ∧ ((mkHistogram "w" none [JVal.num 2] []).push (JVal.num 1)).count
        = (mkHistogram "w" none [JVal.num 2] []).count + 1 :=
  ⟨by decide, rfl,
    (observe_updates (mkHistogram "w" none [JVal.num 2] []) (JVal.num 1)
      (by decide) rfl).1,
    (observe_updates (mkHistogram "w" none [JVal.num 2] []) (JVal.num 1)
      (by decide) rfl).2.2.1⟩

/-- C3 counterexample: a Histogram constructed with duplicate buckets
`[5, 5]` keeps both copies in `_buckets` but they share one record cell, so
a single `push(3)` increments the count stored for threshold 5 by two, not
by one. -/
theorem histogram_duplicate_bucket_double_increment :
    recGet (mkHistogram "h" none [JVal.num 5, JVal.num 5] []).bucketCounts (JVal.num 5) = 0
    ∧ recGet ((mkHistogram "h" none [JVal.num 5, JVal.num 5] []).push
        (JVal.num 3)).bucketCounts (JVal.num 5) = 2
    ∧ ((mkHistogram "h" none [JVal.num 5, JVal.num 5] []).observe (JVal.num 3)).isOk
        = true := by
  refine ⟨by decide, by decide, rfl⟩

end NodeProm
